import Mathlib

/-!
A shallow embedding of the custom keyboard shortcuts page of cosmic-settings
(`src/cosmic-settings/src/pages/input/keyboard/shortcuts/custom.rs`), with
proofs about its draft editor, submission scan, replace queue and shortcut
model rebuild.

External collaborators that are not part of the translated file — the
`cosmic_settings_config::Binding` parser and the configuration store of
`super::Model` — are modelled from the specification document, as noted on
each such definition.
-/

namespace CustomShortcuts

/-- Modifier keys, as named in key combination texts. -/
inductive Modifier where
  | Super
  | Ctrl
  | Alt
  | Shift
deriving DecidableEq, Repr

/-- Modelled from the spec: a structured, order-independent representation of
a key combination (modifier set + key) plus an optional human readable
description (`cosmic_settings_config::Binding`). -/
structure Binding where
  modifiers : List Modifier
  key : Option String
  description : Option String
deriving DecidableEq, Repr

/-- Structural equality of bindings: modifier set and key match; the
description is not part of identity. -/
def Binding.structEq (a b : Binding) : Bool :=
  decide (a.modifiers = b.modifiers) && decide (a.key = b.key)

/-- Modelled from the spec: a binding is set only if it specifies a key. -/
def Binding.is_set (b : Binding) : Bool := b.key.isSome

/-- Split a list of characters at plus signs. -/
def splitPlusAux : List Char → List Char → List String
  | [], acc => [⟨acc⟩]
  | c :: rest, acc =>
    if c = '+' then ⟨acc⟩ :: splitPlusAux rest []
    else splitPlusAux rest (acc ++ [c])

/-- Split a key combination text at plus signs. -/
def splitPlus (s : String) : List String := splitPlusAux s.toList []

/-- The modifier named by one token, when it names one. -/
def modifierOf (s : String) : Option Modifier :=
  if s = "Super" then some .Super
  else if s = "Ctrl" then some .Ctrl
  else if s = "Alt" then some .Alt
  else if s = "Shift" then some .Shift
  else none

/-- Modelled from the spec: `Binding::from_str` produces a structured binding
iff the text names at least one non-modifier key; pure-modifier or empty
texts fail. The last non-modifier token is taken as the key. -/
def Binding.from_str (s : String) : Option Binding :=
  let toks := splitPlus s
  let keyToks := toks.filter (fun t => (modifierOf t).isNone && decide (t ≠ ""))
  match keyToks.getLast? with
  | none => none
  | some k => some { modifiers := toks.filterMap modifierOf, key := some k, description := none }

/-- Does the text parse into a set binding, i.e. `Binding::from_str` succeeds
and `is_set` holds on the result? -/
def parsesAsSet (t : String) : Bool :=
  match Binding.from_str t with
  | some b => b.is_set
  | none => false

/-- Shortcut actions: custom shortcuts spawn a command; the other action kinds
present in a configuration are represented opaquely. -/
inductive Action where
  | Spawn (task : String)
  | Other (id : Nat)
deriving DecidableEq, Repr

/-- Modelled from the spec: the display label of an action
(`super::localize_action`). -/
def localize_action : Action → String
  | .Spawn task => task
  | .Other id => toString id

/-- The backing shortcut configuration: a sequence of `(binding, action)`
entries, holding at most one entry per structural binding. -/
abbrev Config := List (Binding × Action)

/-- Modelled from the spec: `Model::config_contains` returns the action in the
entire configuration that already owns a structurally equal binding. -/
def config_contains (config : Config) (b : Binding) : Option Action :=
  (config.find? (fun e => Binding.structEq e.1 b)).map (fun e => e.2)

/-- Modelled from the spec: `Model::config_add` binds `b` under `action` in
the configuration. -/
def config_add (config : Config) (action : Action) (b : Binding) : Config :=
  config ++ [(b, action)]

/-- Modelled from the spec: `Model::config_remove` deletes the binding
occurrence from wherever it lives in the configuration. -/
def config_remove (config : Config) (b : Binding) : Config :=
  config.filter (fun e => !Binding.structEq e.1 b)

/-- Modelled from the spec: `str::trim`, removing leading and trailing
spaces. -/
def strTrim (s : String) : String :=
  ⟨((s.toList.dropWhile (fun c => c = ' ')).reverse.dropWhile (fun c => c = ' ')).reverse⟩

/-- Draft state of the add-shortcut form (`AddShortcut`). Key rows are kept in
insertion order; the slab key of a row is its position (keys stay contiguous
because rows are only ever removed from the tail), and the second component
is its widget id. -/
structure AddShortcut where
  active : Bool
  editing : Option Nat
  name : String
  task : String
  keys : List (String × Nat)
deriving DecidableEq, Repr

/-- `AddShortcut::enable`: activate the form, clear the name and the task, and
collapse the key rows to a single empty row, keeping the widget id of row 0
when one exists. `fresh` supplies the `widget::Id::unique` value used when
the row collection was empty. The `editing` field is not touched. -/
def AddShortcut.enable (a : AddShortcut) (fresh : Nat) : AddShortcut × Nat :=
  let b := { a with active := true, name := "", task := "" }
  match a.keys with
  | [] => ({ b with keys := [("", fresh)] }, fresh + 1)
  | (_, id0) :: _ => ({ b with keys := [("", id0)] }, fresh)

/-- State of the custom-shortcuts page (`Page`): the backing configuration
(the store of `super::Model`, whose shortcut model listing is the derived
`bindings` of the configuration), the draft form, the replace dialog queue,
and a counter supplying fresh widget ids. -/
structure Page where
  config : Config
  addShortcut : AddShortcut
  replaceDialog : List (Binding × Action × String)
  nextId : Nat
deriving DecidableEq, Repr

/-- The loop of `Page::add_keybinding`: clear the text of the first key row
whose text fails to parse, keeping its widget id; `none` when every row
parses. -/
def clearFirstFailing : List (String × Nat) → Option (List (String × Nat))
  | [] => none
  | (text, id) :: rest =>
    if (Binding.from_str text).isSome then
      (clearFirstFailing rest).map (fun l => (text, id) :: l)
    else some (("", id) :: rest)

/-- `Page::add_keybinding`: reuse the first row whose text fails to parse,
clearing its text; otherwise insert a fresh empty row and mark it as being
edited. -/
def Page.add_keybinding (p : Page) : Page :=
  match clearFirstFailing p.addShortcut.keys with
  | some keys => { p with addShortcut := { p.addShortcut with keys := keys } }
  | none =>
    { p with
      addShortcut :=
        { p.addShortcut with
          keys := p.addShortcut.keys ++ [("", p.nextId)]
          editing := some p.addShortcut.keys.length }
      nextId := p.nextId + 1 }

/-- `Page::add_shortcut`: commit one binding, described by the draft name,
under the spawn action of the draft task; the drawer stays active only while
replace decisions are outstanding. -/
def Page.add_shortcut (p : Page) (binding : Binding) : Page :=
  { p with
    addShortcut := { p.addShortcut with active := !p.replaceDialog.isEmpty }
    config := config_add p.config (Action.Spawn p.addShortcut.task)
      { binding with description := some p.addShortcut.name } }

/-- Outcome of the row scan of the `Message::AddShortcut` handler. -/
structure ScanOut where
  addable : List Binding
  conflicts : List (Binding × Action × String)
  aborted : Bool
deriving DecidableEq, Repr

/-- The row scan loop of the `Message::AddShortcut` handler: empty rows are
skipped; a row that fails to parse into a set binding aborts the scan (rows
after it are not visited); a row owned by an existing action is queued as a
replace conflict; the remaining rows are collected for direct commit. -/
def scanRows (config : Config) : List (String × Nat) → ScanOut
  | [] => ⟨[], [], false⟩
  | (text, _) :: rest =>
    if text = "" then scanRows config rest
    else
      match Binding.from_str text with
      | none => ⟨[], [], true⟩
      | some b =>
        if !b.is_set then ⟨[], [], true⟩
        else
          match config_contains config b with
          | some action =>
            let out := scanRows config rest
            ⟨out.addable, (b, action, localize_action action) :: out.conflicts, out.aborted⟩
          | none =>
            let out := scanRows config rest
            ⟨b :: out.addable, out.conflicts, out.aborted⟩

/-- The `Message::AddShortcut` handler: abort when the trimmed name or task is
empty or when a non-empty row fails to parse; conflicts queued before an
abort remain pushed; on success every directly addable binding is
committed. -/
def Page.submitShortcut (p : Page) : Page :=
  if strTrim p.addShortcut.name = "" ∨ strTrim p.addShortcut.task = "" then p
  else
    let out := scanRows p.config p.addShortcut.keys
    let p1 := { p with replaceDialog := p.replaceDialog ++ out.conflicts }
    if out.aborted then p1 else out.addable.foldl Page.add_shortcut p1

/-- Messages of the custom shortcuts page. `Shortcut` carries only whether the
delegated message was `ShortcutMessage::ShowShortcut`; the rest of its
handling lives in the out-of-scope `super::Model`. -/
inductive Message where
  | AddKeybinding
  | AddShortcut
  | TaskInput (text : String)
  | EditCombination
  | KeyEditing (id : Nat) (enable : Bool)
  | KeyInput (id : Nat) (text : String)
  | NameInput (text : String)
  | NameSubmit
  | ReplaceApply
  | ReplaceCancel
  | Shortcut (isShowShortcut : Bool)
  | ShortcutContext
deriving DecidableEq, Repr

/-- `Page::update`. UI focus and selection tasks are fire-and-forget and not
part of the state; `none` models a panic (the unguarded slab index of the
`Message::KeyInput` arm). The store rebuild of `Model::on_enter` recomputes
the derived `bindings` listing of the configuration and leaves this state
unchanged. -/
def Page.update (p : Page) (m : Message) : Option Page :=
  match m with
  | .TaskInput text => some { p with addShortcut := { p.addShortcut with task := text } }
  | .KeyInput id text =>
    match p.addShortcut.keys[id]? with
    | none => none
    | some r =>
      some { p with addShortcut :=
        { p.addShortcut with keys := p.addShortcut.keys.set id (text, r.2) } }
  | .KeyEditing id enable =>
    if enable then some { p with addShortcut := { p.addShortcut with editing := some id } }
    else if p.addShortcut.editing = some id then
      let p1 := p.add_keybinding
      some { p1 with addShortcut := { p1.addShortcut with editing := none } }
    else some p
  | .NameInput text => some { p with addShortcut := { p.addShortcut with name := text } }
  | .AddKeybinding => some p.add_keybinding
  | .AddShortcut => some p.submitShortcut
  | .EditCombination =>
    match p.addShortcut.keys with
    | [] => some p
    | _ :: _ => some { p with addShortcut := { p.addShortcut with editing := some 0 } }
  | .NameSubmit => some p
  | .ReplaceApply =>
    match p.replaceDialog.getLast? with
    | none => some p
    | some c =>
      let p1 := { p with replaceDialog := p.replaceDialog.dropLast }
      let p2 := { p1 with config := config_remove p1.config c.1 }
      some (p2.add_shortcut c.1)
  | .ReplaceCancel => some { p with replaceDialog := p.replaceDialog.dropLast }
  | .Shortcut isShow =>
    some (if isShow then { p with addShortcut := { p.addShortcut with active := false } } else p)
  | .ShortcutContext =>
    let r := p.addShortcut.enable p.nextId
    some { p with addShortcut := r.1, nextId := r.2 }

/-- Run a sequence of messages, propagating a panic. -/
def Page.updates (p : Page) : List Message → Option Page
  | [] => some p
  | m :: ms =>
    match p.update m with
    | none => none
    | some p1 => p1.updates ms

/-- The pending conflict presented by `Page::dialog`: the last element of the
replace queue. -/
def Page.dialogConflict (p : Page) : Option (Binding × Action × String) :=
  p.replaceDialog.getLast?

/-- `Page::default`: empty configuration view, inactive draft, empty queue. -/
def Page.defaultPage : Page :=
  { config := [], addShortcut := ⟨false, none, "", "", []⟩, replaceDialog := [], nextId := 0 }

/-- One displayed binding of a shortcut model (`ShortcutBinding`). -/
structure ShortcutBinding where
  id : Nat
  binding : Binding
  input : String
  is_default : Bool
  is_saved : Bool
deriving DecidableEq, Repr

/-- One action grouped with its bindings (`ShortcutModel`). -/
structure ShortcutModel where
  action : Action
  bindings : List ShortcutBinding
  description : String
  modified : Nat
deriving DecidableEq, Repr

/-- The in-place update inside `bindings`: refresh the description of the
first model with the given action and append the new binding to its set. -/
def updateExisting (models : List ShortcutModel) (action : Action)
    (nb : ShortcutBinding) (desc : String) : List ShortcutModel :=
  match models with
  | [] => []
  | m :: rest =>
    if m.action = action then
      { m with description := desc, bindings := m.bindings ++ [nb] } :: rest
    else m :: updateExisting rest action nb desc

/-- One fold step of `bindings`: spawn entries are grouped by action; the
counter supplies fresh widget ids. -/
def bindingsStep (acc : List ShortcutModel × Nat) (e : Binding × Action) :
    List ShortcutModel × Nat :=
  match e.2 with
  | Action.Spawn task =>
    let description := e.1.description.getD task
    let nb : ShortcutBinding := ⟨acc.2, e.1, "", false, true⟩
    if acc.1.any (fun m => decide (m.action = Action.Spawn task)) then
      (updateExisting acc.1 (Action.Spawn task) nb description, acc.2 + 1)
    else
      (acc.1 ++ [⟨Action.Spawn task, [nb], description, 0⟩], acc.2 + 1)
  | _ => acc

/-- The fold of `bindings`, threading the widget id counter. -/
def bindingsAux (keybindings : Config) : List ShortcutModel × Nat :=
  keybindings.foldl bindingsStep ([], 0)

/-- The `bindings` function: rebuild the shortcut model listing from the
keyboard configuration, keeping spawn actions only. -/
def bindings (_defaults : Config) (keybindings : Config) : List ShortcutModel :=
  (bindingsAux keybindings).1

/-- The description contributed by one spawn configuration entry: the entry's
binding description, defaulting to the spawned task. -/
def entryDescr (e : Binding × Action) : String :=
  match e.2 with
  | Action.Spawn task => e.1.description.getD task
  | _ => ""

/-- Specification of the rebuilt model listing relative to the configuration
entries it was folded from: every model is a spawn action; a model's binding
set is exactly the sequence of bindings of the entries sharing its action;
a model's description comes from the most recently seen entry for its
action; actions are pairwise distinct; and every spawn entry is
represented. -/
abbrev ModelsSpec (entries : Config) (models : List ShortcutModel) : Prop :=
  (∀ m ∈ models,
    (∃ t, m.action = Action.Spawn t)
    ∧ m.bindings.map (fun sb => sb.binding)
        = (entries.filter (fun e => decide (e.2 = m.action))).map (fun e => e.1)
    ∧ (entries.filter (fun e => decide (e.2 = m.action))).getLast?.map entryDescr
        = some m.description)
  ∧ models.Pairwise (fun m1 m2 => m1.action ≠ m2.action)
  ∧ ∀ e ∈ entries, (∃ t, e.2 = Action.Spawn t) → ∃ m ∈ models, m.action = e.2

/-- A concrete binding for the key `A` with no modifiers. -/
def bA : Binding := ⟨[], some "A", none⟩

/-- A binding structurally equal to `bA` but carrying a description. -/
def bDup : Binding := ⟨[], some "A", some "d"⟩

/-- A page whose draft holds a conflicting row followed by a row that fails to
parse: the key `A` is owned by a built-in action and `Super` names no key. -/
def pC2 : Page :=
  { config := [(bA, .Other 0)]
    addShortcut := ⟨true, none, "n", "t", [("A", 10), ("Super", 11)]⟩
    replaceDialog := []
    nextId := 12 }

/-- A page whose pending conflict is owned by the very spawn action the draft
would create: the owning action and the new action are both `Spawn "x"`. -/
def pC3 : Page :=
  { config := [(bA, .Spawn "x")]
    addShortcut := ⟨true, none, "n", "x", []⟩
    replaceDialog := [(bA, .Spawn "x", "x")]
    nextId := 0 }

/-- A page whose draft name and task carry surrounding spaces while their
trimmed forms are non-empty, with one valid non-conflicting row. -/
def pC6 : Page :=
  { config := []
    addShortcut := ⟨true, none, " n ", " t ", [("A", 0)]⟩
    replaceDialog := []
    nextId := 1 }

/-- A page whose draft holds a single non-empty row that fails to parse. -/
def pW1 : Page :=
  { config := []
    addShortcut := ⟨true, none, "n", "t", [("Super", 0)]⟩
    replaceDialog := []
    nextId := 1 }

/-- A page with a single pending replace conflict owned by a built-in. -/
def pW4 : Page :=
  { config := [(bA, .Other 5)]
    addShortcut := ⟨true, none, "n", "t", []⟩
    replaceDialog := [(bA, .Other 5, "5")]
    nextId := 0 }

/-- A page whose draft holds one row whose text fails to parse. -/
def pW5 : Page :=
  { config := []
    addShortcut := ⟨true, none, "", "", [("Super", 7)]⟩
    replaceDialog := []
    nextId := 8 }

/-- Auxiliary: the last element of a list extended on the right. -/
theorem getLast?_snoc {α : Type} (l : List α) (a : α) : (l ++ [a]).getLast? = some a :=
  List.getLast?_concat l

/-- Auxiliary: dropping the last element of a list extended on the right. -/
theorem dropLast_snoc {α : Type} (l : List α) (a : α) : (l ++ [a]).dropLast = l :=
  List.dropLast_concat

/-- Auxiliary: a structure update of a page that rewrites no field is the
identity. -/
theorem page_eta (p : Page) (h : p.replaceDialog = []) :
    ({ p with replaceDialog := p.replaceDialog.dropLast } : Page) = p := by
  obtain ⟨cfg, a, rd, n⟩ := p
  simp only at h
  simp [h]

/-- Auxiliary: the scan of the submit handler aborts whenever some non-empty
row fails to parse into a set binding. -/
theorem scan_aborted_of_failing (config : Config) (keys : List (String × Nat))
    (h : ∃ r ∈ keys, r.1 ≠ "" ∧ parsesAsSet r.1 = false) :
    (scanRows config keys).aborted = true := by
  induction keys with
  | nil => simp at h
  | cons r rest ih =>
    obtain ⟨x, hx, hne, hfail⟩ := h
    obtain ⟨text, wid⟩ := r
    rcases List.mem_cons.mp hx with hx | hx
    · subst hx
      simp only at hne hfail
      rw [scanRows, if_neg hne]
      cases hfs : Binding.from_str text with
      | none => rfl
      | some b =>
        have hbs : b.is_set = false := by
          rw [parsesAsSet, hfs] at hfail
          exact hfail
        simp [hfs, hbs]
    · have habort : (scanRows config rest).aborted = true := ih ⟨x, hx, hne, hfail⟩
      by_cases ht : text = ""
      · rw [scanRows, if_pos ht]; exact habort
      · rw [scanRows, if_neg ht]
        cases hfs : Binding.from_str text with
        | none => rfl
        | some b =>
          by_cases hbs : b.is_set
          · cases hc : config_contains config b <;> simp [hfs, hbs, hc, habort]
          · simp [hfs, Bool.eq_false_iff.mpr hbs]

/-- Auxiliary: the committed bindings of a direct submission, as a suffix of
the configuration; the draft fields other than `active` are untouched by the
commit fold. -/
theorem foldl_add_shortcut_config (l : List Binding) (p : Page) :
    (l.foldl Page.add_shortcut p).config
      = p.config ++ l.map (fun b =>
          ({ b with description := some p.addShortcut.name }, Action.Spawn p.addShortcut.task)) := by
  induction l generalizing p with
  | nil => simp
  | cons b l ih =>
    rw [List.foldl_cons, ih]
    simp [Page.add_shortcut, config_add, List.append_assoc]

/-- Auxiliary: the reuse loop of `add_keybinding` finds nothing when every row
parses. -/
theorem clearFirstFailing_none (l : List (String × Nat))
    (h : ∀ r ∈ l, (Binding.from_str r.1).isSome = true) :
    clearFirstFailing l = none := by
  induction l with
  | nil => rfl
  | cons r rest ih =>
    obtain ⟨text, wid⟩ := r
    rw [clearFirstFailing, if_pos (h (text, wid) (List.mem_cons_self _ _)),
      ih (fun x hx => h x (List.mem_cons_of_mem _ hx))]
    rfl

/-- Auxiliary: the reuse loop of `add_keybinding` clears the text of the first
row that fails to parse, keeping its widget id and every other row. -/
theorem clearFirstFailing_set (l : List (String × Nat)) (i : Nat) (hi : i < l.length)
    (hbefore : ∀ j, (hj : j < l.length) → j < i →
      (Binding.from_str (l.get ⟨j, hj⟩).1).isSome = true)
    (hfail : Binding.from_str (l.get ⟨i, hi⟩).1 = none) :
    clearFirstFailing l = some (l.set i ("", (l.get ⟨i, hi⟩).2)) := by
  induction l generalizing i with
  | nil => simp at hi
  | cons r rest ih =>
    obtain ⟨text, wid⟩ := r
    cases i with
    | zero =>
      simp only [List.get] at hfail
      rw [clearFirstFailing, if_neg (by simp [hfail])]
      rfl
    | succ i =>
      have hhead : (Binding.from_str text).isSome = true :=
        hbefore 0 (Nat.zero_lt_succ _) (Nat.zero_lt_succ _)
      rw [clearFirstFailing, if_pos hhead,
        ih i (Nat.lt_of_succ_lt_succ hi)
          (fun j hj hji => hbefore (j + 1) (Nat.succ_lt_succ hj) (Nat.succ_lt_succ hji))
          hfail]
      rfl

/-- Auxiliary: after removing a binding, no configuration entry is
structurally equal to it. -/
theorem find?_remove_none (config : Config) (b : Binding) :
    (config_remove config b).find? (fun e => Binding.structEq e.1 b) = none := by
  apply List.find?_eq_none.mpr
  intro e he
  have := (List.mem_filter.mp he).2
  simp only [Bool.not_eq_true'] at this
  simp [this]

/-- Auxiliary: changing only the description preserves structural equality. -/
theorem structEq_same_description (b : Binding) (d : Option String) :
    Binding.structEq { b with description := d } b = true := by
  simp [Binding.structEq]

/-- Auxiliary: after removing a binding and re-adding it (with a new
description) under a new action, the configuration owner of the binding is
the new action. -/
theorem config_contains_readd (config : Config) (b : Binding) (a : Action) (d : Option String) :
    config_contains (config_add (config_remove config b) a { b with description := d }) b
      = some a := by
  rw [config_contains, config_add, List.find?_append, find?_remove_none]
  simp [List.find?, structEq_same_description]

/-- Auxiliary: the submit handler with an empty trimmed name or task returns
the page unchanged. -/
theorem submit_of_empty (p : Page)
    (h : strTrim p.addShortcut.name = "" ∨ strTrim p.addShortcut.task = "") :
    p.submitShortcut = p := by
  rw [Page.submitShortcut, if_pos h]

/-- Auxiliary: the submit handler on an aborted scan only pushes the scanned
conflicts. -/
theorem submit_of_aborted (p : Page)
    (hne : ¬(strTrim p.addShortcut.name = "" ∨ strTrim p.addShortcut.task = ""))
    (hab : (scanRows p.config p.addShortcut.keys).aborted = true) :
    p.submitShortcut = { p with replaceDialog :=
      p.replaceDialog ++ (scanRows p.config p.addShortcut.keys).conflicts } := by
  rw [Page.submitShortcut, if_neg hne]
  simp only [hab, if_true]

/-- Auxiliary: the submit handler on a successful scan pushes the scanned
conflicts and commits every addable binding. -/
theorem submit_of_ok (p : Page)
    (hne : ¬(strTrim p.addShortcut.name = "" ∨ strTrim p.addShortcut.task = ""))
    (hab : (scanRows p.config p.addShortcut.keys).aborted = false) :
    p.submitShortcut = (scanRows p.config p.addShortcut.keys).addable.foldl Page.add_shortcut
      { p with replaceDialog :=
        p.replaceDialog ++ (scanRows p.config p.addShortcut.keys).conflicts } := by
  rw [Page.submitShortcut, if_neg hne]
  simp only [hab, Bool.false_eq_true, if_false]

/-- C1: for every draft whose trimmed name and trimmed command are non-empty,
if at least one non-empty key row's text fails to parse into a set binding,
then the `Message::AddShortcut` handler commits zero bindings: the
configuration receives no addition for any row of that submission, including
rows that had parsed successfully before the failing one. -/
theorem c1_failed_parse_commits_nothing (p : Page)
    (hname : strTrim p.addShortcut.name ≠ "")
    (htask : strTrim p.addShortcut.task ≠ "")
    (hfail : ∃ r ∈ p.addShortcut.keys, r.1 ≠ "" ∧ parsesAsSet r.1 = false) :
    ∃ p1, p.update .AddShortcut = some p1 ∧ p1.config = p.config := by
  refine ⟨p.submitShortcut, rfl, ?_⟩
  rw [submit_of_aborted p (by tauto)
    (scan_aborted_of_failing p.config p.addShortcut.keys hfail)]

/-- Witness for C1: a concrete draft with name `n`, task `t` and the single
non-parsing row `Super` commits nothing. -/
theorem c1_witness : ∃ p1, pW1.update .AddShortcut = some p1 ∧ p1.config = pW1.config :=
  c1_failed_parse_commits_nothing pW1 (by decide) (by decide)
    ⟨("Super", 0), by decide, by decide, by decide⟩

/-- C2 (corrected): an abort of the `Message::AddShortcut` handler — on an
empty trimmed name or task, or on a non-empty row that fails to parse —
leaves the configuration (hence the derived shortcut model store), the whole
draft form state and the widget id counter unchanged, so the form stays
open; however the replace queue is not restored: conflicts scanned before
the failing row remain pushed, so the queue may grow by a suffix. -/
theorem c2_amended_abort_effects (p : Page)
    (habort : strTrim p.addShortcut.name = "" ∨ strTrim p.addShortcut.task = ""
      ∨ ∃ r ∈ p.addShortcut.keys, r.1 ≠ "" ∧ parsesAsSet r.1 = false) :
    ∃ p1, p.update .AddShortcut = some p1
      ∧ p1.config = p.config
      ∧ p1.addShortcut = p.addShortcut
      ∧ p1.nextId = p.nextId
      ∧ ∃ extra, p1.replaceDialog = p.replaceDialog ++ extra := by
  refine ⟨p.submitShortcut, rfl, ?_⟩
  by_cases hempty : strTrim p.addShortcut.name = "" ∨ strTrim p.addShortcut.task = ""
  · rw [submit_of_empty p hempty]
    exact ⟨rfl, rfl, rfl, [], by simp⟩
  · have hfail : ∃ r ∈ p.addShortcut.keys, r.1 ≠ "" ∧ parsesAsSet r.1 = false := by tauto
    rw [submit_of_aborted p hempty
      (scan_aborted_of_failing p.config p.addShortcut.keys hfail)]
    exact ⟨rfl, rfl, rfl, _, rfl⟩

/-- Witness for C2 (corrected): on the concrete draft `pW1` the abort keeps
the configuration, the form and the counter, and extends the queue by some
(here empty) suffix. -/
theorem c2_witness :
    ∃ p1, pW1.update .AddShortcut = some p1
      ∧ p1.config = pW1.config
      ∧ p1.addShortcut = pW1.addShortcut
      ∧ p1.nextId = pW1.nextId
      ∧ ∃ extra, p1.replaceDialog = pW1.replaceDialog ++ extra :=
  c2_amended_abort_effects pW1
    (Or.inr (Or.inr ⟨("Super", 0), by decide, by decide, by decide⟩))

/-- Counterexample to C2 as stated: on `pC2` the trimmed name and task are
non-empty, the non-empty row `Super` fails to parse — so the submission
aborts — yet the replace queue is not unchanged: the conflict for the row
`A`, scanned before the failing row, remains pushed onto the previously
empty `replace_dialog`. -/
theorem c2_counterexample :
    (pC2.update .AddShortcut).map (fun p => p.replaceDialog) = some [(bA, .Other 0, "0")]
    ∧ pC2.replaceDialog = []
    ∧ strTrim pC2.addShortcut.name ≠ ""
    ∧ strTrim pC2.addShortcut.task ≠ ""
    ∧ ("Super", 11) ∈ pC2.addShortcut.keys
    ∧ ("Super" : String) ≠ ""
    ∧ parsesAsSet "Super" = false := by decide

/-- C3 (corrected): applying a pending conflict (`Message::ReplaceApply`)
removes the binding from its existing owner and re-adds it under the spawn
action of the draft's command, so that afterwards the configuration owner of
the binding is the new spawn action; and whenever the owning action differs
from that spawn action, the binding no longer maps to the owning action. -/
theorem c3_amended_apply_rebinds (p : Page) (q : List (Binding × Action × String))
    (b : Binding) (a : Action) (s : String)
    (hq : p.replaceDialog = q ++ [(b, a, s)]) :
    ∃ p1, p.update .ReplaceApply = some p1
      ∧ config_contains p1.config b = some (Action.Spawn p.addShortcut.task)
      ∧ (a ≠ Action.Spawn p.addShortcut.task → config_contains p1.config b ≠ some a) := by
  have hc : config_contains
      (config_add (config_remove p.config b) (Action.Spawn p.addShortcut.task)
        { b with description := some p.addShortcut.name }) b
      = some (Action.Spawn p.addShortcut.task) :=
    config_contains_readd p.config b _ _
  refine ⟨_, by rw [Page.update, hq, getLast?_snoc], ?_⟩
  exact ⟨hc, fun hne hcontra => hne (Option.some_inj.mp (hc.symm.trans hcontra)).symm⟩

/-- Witness for C3 (corrected): applying the queued conflict of `pW4` (owner
`Other 5`) makes the configuration owner of `bA` the action `Spawn "t"`,
and `bA` no longer maps to `Other 5`. -/
theorem c3_witness :
    ∃ p1, pW4.update .ReplaceApply = some p1
      ∧ config_contains p1.config bA = some (Action.Spawn pW4.addShortcut.task)
      ∧ (Action.Other 5 ≠ Action.Spawn pW4.addShortcut.task →
          config_contains p1.config bA ≠ some (Action.Other 5)) :=
  c3_amended_apply_rebinds pW4 [] bA (Action.Other 5) "5" rfl

/-- Counterexample to C3 as stated: on `pC3` the pending conflict's owning
action is `Spawn "x"`, the very action the draft (task `x`) creates; after
`Message::ReplaceApply` the configuration owner of the binding is still
`Spawn "x"` — the owning action — refuting that the binding no longer maps
to the owning action. -/
theorem c3_counterexample :
    pC3.replaceDialog = [(bA, Action.Spawn "x", "x")]
    ∧ pC3.addShortcut.task = "x"
    ∧ (pC3.update .ReplaceApply).map (fun p => config_contains p.config bA)
        = some (some (Action.Spawn "x")) := by decide

/-- C6 (corrected): every binding committed by a submission — directly or via
replace-apply — is stored with the draft's raw (untrimmed) name as its
description, bound to the spawn action of the draft's raw (untrimmed)
command; the trimmed forms are used only for the emptiness validation. -/
theorem c6_amended_commit_fields (p : Page) :
    (∃ p1 new, p.update .AddShortcut = some p1
      ∧ p1.config = p.config ++ new
      ∧ ∀ e ∈ new, e.1.description = some p.addShortcut.name
          ∧ e.2 = Action.Spawn p.addShortcut.task)
    ∧ (∀ q b a s, p.replaceDialog = q ++ [(b, a, s)] →
      ∃ p1, p.update .ReplaceApply = some p1
        ∧ p1.config = config_remove p.config b
            ++ [({ b with description := some p.addShortcut.name },
                 Action.Spawn p.addShortcut.task)]) := by
  constructor
  · refine ⟨p.submitShortcut, ?_⟩
    by_cases hempty : strTrim p.addShortcut.name = "" ∨ strTrim p.addShortcut.task = ""
    · exact ⟨[], rfl, by rw [submit_of_empty p hempty]; simp, by simp⟩
    · cases hab : (scanRows p.config p.addShortcut.keys).aborted with
      | true =>
        exact ⟨[], rfl, by rw [submit_of_aborted p hempty hab]; simp, by simp⟩
      | false =>
        refine ⟨(scanRows p.config p.addShortcut.keys).addable.map (fun b =>
            ({ b with description := some p.addShortcut.name },
             Action.Spawn p.addShortcut.task)), rfl, ?_, ?_⟩
        · rw [submit_of_ok p hempty hab, foldl_add_shortcut_config]
        · intro e he
          obtain ⟨b, _, hb⟩ := List.mem_map.mp he
          exact ⟨by rw [← hb], by rw [← hb]⟩
  · intro q b a s hq
    exact ⟨_, by rw [Page.update, hq, getLast?_snoc], rfl⟩

/-- Witness for C6 (corrected): applying the queued conflict of `pW4` stores
the binding with description `some "n"` (the raw draft name) under
`Spawn "t"` (the raw draft task). -/
theorem c6_witness :
    ∃ p1, pW4.update .ReplaceApply = some p1
      ∧ p1.config = config_remove pW4.config bA
          ++ [({ bA with description := some pW4.addShortcut.name },
               Action.Spawn pW4.addShortcut.task)] :=
  (c6_amended_commit_fields pW4).2 [] bA (Action.Other 5) "5" rfl

/-- Counterexample to C6 as stated: on `pC6` the draft name is `" n "` and the
command `" t "`, both with non-empty trimmed forms; the committed binding
carries the untrimmed description `" n "` and the action `Spawn " t "`,
which differ from the trimmed forms the claim requires. -/
theorem c6_counterexample :
    (pC6.update .AddShortcut).map (fun p => p.config)
      = some [(⟨[], some "A", some " n "⟩, Action.Spawn " t ")]
    ∧ strTrim " n " ≠ " n "
    ∧ strTrim " t " ≠ " t "
    ∧ strTrim pC6.addShortcut.name ≠ ""
    ∧ strTrim pC6.addShortcut.task ≠ "" := by decide

/-- C4: the replace queue is processed as a stack: the conflict presented by
the dialog is the most recently queued element; apply and cancel on a
non-empty queue each remove exactly that element; and apply or cancel on an
empty queue is a no-op that changes no state. -/
theorem c4_replace_queue_stack (p : Page) :
    (∀ q c, p.replaceDialog = q ++ [c] →
      p.dialogConflict = some c
      ∧ (∃ p1, p.update .ReplaceApply = some p1 ∧ p1.replaceDialog = q)
      ∧ (∃ p2, p.update .ReplaceCancel = some p2 ∧ p2.replaceDialog = q))
    ∧ (p.replaceDialog = [] →
      p.update .ReplaceApply = some p ∧ p.update .ReplaceCancel = some p) := by
  constructor
  · intro q c hq
    refine ⟨?_, ?_, ?_⟩
    · rw [Page.dialogConflict, hq, getLast?_snoc]
    · exact ⟨_, by rw [Page.update, hq, getLast?_snoc],
        show (q ++ [c]).dropLast = q from dropLast_snoc q c⟩
    · exact ⟨_, rfl, by
        show p.replaceDialog.dropLast = q
        rw [hq]
        exact dropLast_snoc q c⟩
  · intro h
    constructor
    · rw [Page.update, h]
      rfl
    · rw [Page.update, page_eta p h]

/-- Witness for C4: on the concrete page `pW4` with one queued conflict, the
dialog presents it and apply and cancel both empty the queue. -/
theorem c4_witness :
    pW4.dialogConflict = some (bA, Action.Other 5, "5")
    ∧ (∃ p1, pW4.update .ReplaceApply = some p1 ∧ p1.replaceDialog = [])
    ∧ (∃ p2, pW4.update .ReplaceCancel = some p2 ∧ p2.replaceDialog = []) :=
  (c4_replace_queue_stack pW4).1 [] (bA, Action.Other 5, "5") rfl

/-- C7 (corrected): opening the add-shortcut drawer (`Message::ShortcutContext`
via `AddShortcut::enable`) clears the name and the command, collapses the
row collection to exactly one row with empty text, and activates the form —
but the `editing` marker is not reset: it keeps its previous value, so a row
left in editing state in a previous draft session (slab key 0) can remain
marked as editing. -/
theorem c7_amended_open_resets_except_editing (p : Page) :
    ∃ p1, p.update .ShortcutContext = some p1
      ∧ p1.addShortcut.active = true
      ∧ p1.addShortcut.name = ""
      ∧ p1.addShortcut.task = ""
      ∧ (∃ wid, p1.addShortcut.keys = [("", wid)])
      ∧ p1.addShortcut.editing = p.addShortcut.editing
      ∧ p1.config = p.config
      ∧ p1.replaceDialog = p.replaceDialog := by
  refine ⟨_, rfl, ?_⟩
  rw [AddShortcut.enable]
  cases hk : p.addShortcut.keys with
  | nil => exact ⟨rfl, rfl, rfl, ⟨p.nextId, rfl⟩, rfl, rfl, rfl⟩
  | cons r rest => exact ⟨rfl, rfl, rfl, ⟨r.2, rfl⟩, rfl, rfl, rfl⟩

/-- Counterexample to C7 as stated: starting from the default page, opening
the drawer, marking row 0 as being edited, and opening the drawer again
leaves `editing = some 0` while the collapsed collection still has a row
with slab key 0 — so the single row is still marked editing, not
non-editing. -/
theorem c7_counterexample :
    (Page.defaultPage.updates [.ShortcutContext, .KeyEditing 0 true, .ShortcutContext]).map
        (fun p => (p.addShortcut.editing, p.addShortcut.keys))
      = some (some 0, [("", 0)]) := by decide

/-- C8: cancelling a pending conflict (`Message::ReplaceCancel`) pops it
without mutating the configuration (hence the derived store) or the draft:
the binding's owner in the configuration is unchanged, still the original
owning action. -/
theorem c8_cancel_preserves_owner (p : Page) (q : List (Binding × Action × String))
    (b : Binding) (a : Action) (s : String)
    (hq : p.replaceDialog = q ++ [(b, a, s)])
    (howner : config_contains p.config b = some a) :
    ∃ p1, p.update .ReplaceCancel = some p1
      ∧ p1.config = p.config
      ∧ p1.addShortcut = p.addShortcut
      ∧ p1.replaceDialog = q
      ∧ config_contains p1.config b = some a := by
  refine ⟨_, rfl, rfl, rfl, ?_, howner⟩
  simp only [hq, dropLast_snoc]

/-- Witness for C8: cancelling the queued conflict of `pW4` leaves the
configuration owner of the binding `bA` at the original `Other 5`. -/
theorem c8_witness :
    ∃ p1, pW4.update .ReplaceCancel = some p1
      ∧ p1.config = pW4.config
      ∧ p1.addShortcut = pW4.addShortcut
      ∧ p1.replaceDialog = []
      ∧ config_contains p1.config bA = some (Action.Other 5) :=
  c8_cancel_preserves_owner pW4 [] bA (Action.Other 5) "5" rfl (by decide)

/-- C5 (corrected): `Message::AddKeybinding` (addRow) reuses the first
existing row whose text fails to parse — clearing its text, keeping its
widget id and position, allocating no row and leaving the editing marker and
the id counter unchanged — and allocates exactly one fresh empty row (marked
editing) only when every row's text parses. The claimed invariant that at
most one row simultaneously has empty or non-parsing text does not hold
under arbitrary row edits (see the counterexample): only the reuse behaviour
of addRow itself holds. -/
theorem c5_amended_add_keybinding_reuses (p : Page) :
    (∀ i, (hi : i < p.addShortcut.keys.length) →
      (∀ j, (hj : j < p.addShortcut.keys.length) → j < i →
        (Binding.from_str (p.addShortcut.keys.get ⟨j, hj⟩).1).isSome = true) →
      Binding.from_str (p.addShortcut.keys.get ⟨i, hi⟩).1 = none →
      p.add_keybinding = { p with addShortcut := { p.addShortcut with
        keys := p.addShortcut.keys.set i ("", (p.addShortcut.keys.get ⟨i, hi⟩).2) } })
    ∧ ((∀ r ∈ p.addShortcut.keys, (Binding.from_str r.1).isSome = true) →
      p.add_keybinding = { p with
        addShortcut := { p.addShortcut with
          keys := p.addShortcut.keys ++ [("", p.nextId)]
          editing := some p.addShortcut.keys.length }
        nextId := p.nextId + 1 }) := by
  constructor
  · intro i hi hb hf
    rw [Page.add_keybinding, clearFirstFailing_set p.addShortcut.keys i hi hb hf]
  · intro h
    rw [Page.add_keybinding, clearFirstFailing_none p.addShortcut.keys h]

/-- Witness for C5 (corrected): on `pW5`, whose single row `Super` fails to
parse, addRow clears that row's text and keeps its widget id 7. -/
theorem c5_witness :
    pW5.add_keybinding = { pW5 with addShortcut := { pW5.addShortcut with keys := [("", 7)] } } :=
  (c5_amended_add_keybinding_reuses pW5).1 0 (by decide)
    (fun j _ hlt => absurd hlt (Nat.not_lt_zero j)) (by decide)

/-- Counterexample to C5 as stated: row edits are part of the quantified
sequence, and after opening the drawer, typing `A` into row 0, adding a row
(allocating an empty row 1) and then clearing row 0 by a row edit, two rows
simultaneously have empty text — refuting the at-most-one-invalid-row
invariant. -/
theorem c5_counterexample :
    (Page.defaultPage.updates
        [.ShortcutContext, .KeyInput 0 "A", .AddKeybinding, .KeyInput 0 ""]).map
        (fun p => (p.addShortcut.keys.filter
          (fun r => decide (r.1 = "") || !parsesAsSet r.1)).length)
      = some 2 := by decide

/-- C10: at the update interface, `Message::KeyInput(id, text)` is total only
when `id` is an occupied key of the draft's row collection: for an occupied
id the row's text is assigned in place (keeping its widget id), and for any
id not present the unguarded slab index panics instead of acting as a no-op
or returning an error value. -/
theorem c10_key_input_totality (p : Page) (id : Nat) (text : String) :
    (p.addShortcut.keys[id]? = none → p.update (.KeyInput id text) = none)
    ∧ (∀ r, p.addShortcut.keys[id]? = some r →
        p.update (.KeyInput id text) =
          some { p with addShortcut :=
            { p.addShortcut with keys := p.addShortcut.keys.set id (text, r.2) } }) := by
  constructor
  · intro h
    rw [Page.update, h]
  · intro r h
    rw [Page.update, h]

/-- Witness for C10: the default page has no row with slab key 3, so the
update panics there. -/
theorem c10_witness : Page.defaultPage.update (.KeyInput 3 "x") = none :=
  (c10_key_input_totality Page.defaultPage 3 "x").1 (by decide)

/-- Auxiliary: a map whose function fixes every element of the list is the
identity. -/
theorem map_id_of {α : Type} (l : List α) (f : α → α) (h : ∀ x ∈ l, f x = x) :
    l.map f = l := by
  induction l with
  | nil => rfl
  | cons x l ih =>
    rw [List.map_cons, h x (List.mem_cons_self x l),
      ih (fun y hy => h y (List.mem_cons_of_mem x hy))]

/-- Auxiliary: when the model actions are pairwise distinct, the in-place
update of the first model with the given action is a map over all models. -/
theorem updateExisting_eq_map (models : List ShortcutModel) (a : Action)
    (nb : ShortcutBinding) (d : String)
    (hdist : models.Pairwise (fun m1 m2 => m1.action ≠ m2.action)) :
    updateExisting models a nb d = models.map (fun m =>
      if m.action = a then { m with description := d, bindings := m.bindings ++ [nb] }
      else m) := by
  induction models with
  | nil => rfl
  | cons m rest ih =>
    rw [List.pairwise_cons] at hdist
    obtain ⟨hm, hrest⟩ := hdist
    by_cases hma : m.action = a
    · rw [updateExisting, if_pos hma, List.map_cons, if_pos hma,
        map_id_of rest _ (fun x hx => if_neg (fun hxa => hm x hx (hma.trans hxa.symm)))]
    · rw [updateExisting, if_neg hma, List.map_cons, if_neg hma, ih hrest]

/-- Auxiliary: the fold step of `bindings` on a spawn entry whose action is
already represented updates the existing model in place. -/
theorem bindingsStep_spawn_any (acc : List ShortcutModel × Nat) (eb : Binding) (task : String)
    (hany : acc.1.any (fun m => decide (m.action = Action.Spawn task)) = true) :
    (bindingsStep acc (eb, Action.Spawn task)).1
      = updateExisting acc.1 (Action.Spawn task)
          ⟨acc.2, eb, "", false, true⟩ (eb.description.getD task) := by
  simp only [bindingsStep]
  rw [if_pos hany]

/-- Auxiliary: the fold step of `bindings` on a spawn entry whose action is
not yet represented appends a fresh model. -/
theorem bindingsStep_spawn_new (acc : List ShortcutModel × Nat) (eb : Binding) (task : String)
    (hany : acc.1.any (fun m => decide (m.action = Action.Spawn task)) = false) :
    (bindingsStep acc (eb, Action.Spawn task)).1
      = acc.1 ++ [⟨Action.Spawn task, [⟨acc.2, eb, "", false, true⟩],
          eb.description.getD task, 0⟩] := by
  simp only [bindingsStep]
  rw [if_neg (by rw [hany]; exact Bool.false_ne_true)]

/-- Auxiliary: one fold step of `bindings` preserves the rebuild
specification, extending the processed entry sequence by the consumed
entry. -/
theorem bindingsStep_spec (entries : Config) (acc : List ShortcutModel × Nat)
    (e : Binding × Action) (h : ModelsSpec entries acc.1) :
    ModelsSpec (entries ++ [e]) (bindingsStep acc e).1 := by
  obtain ⟨h1, h2, h3⟩ := h
  obtain ⟨eb, ea⟩ := e
  cases ea with
  | Other k =>
    show ModelsSpec (entries ++ [(eb, Action.Other k)]) acc.1
    refine ⟨?_, h2, ?_⟩
    · intro m hm
      obtain ⟨hspawn, hbind, hdesc⟩ := h1 m hm
      have hfilter : (entries ++ [(eb, Action.Other k)]).filter
          (fun e => decide (e.2 = m.action))
          = entries.filter (fun e => decide (e.2 = m.action)) := by
        obtain ⟨t, ht⟩ := hspawn
        rw [List.filter_append]
        simp [ht]
      rw [hfilter]
      exact ⟨hspawn, hbind, hdesc⟩
    · intro x hx hxs
      rcases List.mem_append.mp hx with hx | hx
      · exact h3 x hx hxs
      · obtain ⟨t, ht⟩ := hxs
        rw [List.mem_singleton] at hx
        subst hx
        simp at ht
  | Spawn task =>
    have hact : ∀ m : ShortcutModel,
        ((if m.action = Action.Spawn task
          then { m with description := eb.description.getD task
                        bindings := m.bindings ++ [⟨acc.2, eb, "", false, true⟩] }
          else m) : ShortcutModel).action = m.action := by
      intro m
      by_cases hma : m.action = Action.Spawn task <;> simp [hma]
    by_cases hany : acc.1.any (fun m => decide (m.action = Action.Spawn task)) = true
    · rw [bindingsStep_spawn_any acc eb task hany, updateExisting_eq_map _ _ _ _ h2]
      refine ⟨?_, ?_, ?_⟩
      · intro m' hm'
        obtain ⟨m, hm, hfm⟩ := List.mem_map.mp hm'
        obtain ⟨hspawn, hbind, hdesc⟩ := h1 m hm
        rw [← hfm]
        by_cases hma : m.action = Action.Spawn task
        · rw [if_pos hma]
          have hfilter : (entries ++ [(eb, Action.Spawn task)]).filter
              (fun e => decide (e.2 = m.action))
              = entries.filter (fun e => decide (e.2 = m.action))
                ++ [(eb, Action.Spawn task)] := by
            rw [List.filter_append]
            simp [hma]
          refine ⟨⟨task, hma⟩, ?_, ?_⟩
          · show (m.bindings ++ [(⟨acc.2, eb, "", false, true⟩ : ShortcutBinding)]).map
                (fun sb => sb.binding)
              = ((entries ++ [(eb, Action.Spawn task)]).filter
                  (fun e => decide (e.2 = m.action))).map (fun e => e.1)
            rw [hfilter, List.map_append, List.map_append, hbind]
            rfl
          · show ((entries ++ [(eb, Action.Spawn task)]).filter
                (fun e => decide (e.2 = m.action))).getLast?.map entryDescr
              = some (eb.description.getD task)
            rw [hfilter, getLast?_snoc]
            rfl
        · rw [if_neg hma]
          have hfilter : (entries ++ [(eb, Action.Spawn task)]).filter
              (fun e => decide (e.2 = m.action))
              = entries.filter (fun e => decide (e.2 = m.action)) := by
            have hne : Action.Spawn task ≠ m.action := fun hh => hma hh.symm
            rw [List.filter_append]
            simp [hne]
          rw [hfilter]
          exact ⟨hspawn, hbind, hdesc⟩
      · exact List.Pairwise.map _ (fun m1 m2 hne => by rw [hact m1, hact m2]; exact hne) h2
      · intro x hx hxs
        rcases List.mem_append.mp hx with hx | hx
        · obtain ⟨m, hm, hma⟩ := h3 x hx hxs
          exact ⟨_, List.mem_map_of_mem _ hm, by rw [hact m]; exact hma⟩
        · rw [List.mem_singleton] at hx
          subst hx
          obtain ⟨m, hm, hdec⟩ := List.any_eq_true.mp hany
          refine ⟨_, List.mem_map_of_mem _ hm, ?_⟩
          rw [hact m]
          exact of_decide_eq_true hdec
    · have hany' : acc.1.any (fun m => decide (m.action = Action.Spawn task)) = false := by
        simpa using hany
      have hnomem : ∀ m ∈ acc.1, m.action ≠ Action.Spawn task := by
        intro m hm hcontra
        exact hany (List.any_eq_true.mpr ⟨m, hm, decide_eq_true hcontra⟩)
      have hnoentry : ∀ x ∈ entries, x.2 ≠ Action.Spawn task := by
        intro x hx hcontra
        obtain ⟨m, hm, hma⟩ := h3 x hx ⟨task, hcontra⟩
        exact hnomem m hm (by rw [hma, hcontra])
      have hfilter_nil : entries.filter (fun e => decide (e.2 = Action.Spawn task)) = [] :=
        List.filter_eq_nil_iff.mpr (fun x hx => by simpa using hnoentry x hx)
      rw [bindingsStep_spawn_new acc eb task hany']
      refine ⟨?_, ?_, ?_⟩
      · intro m' hm'
        rcases List.mem_append.mp hm' with hm | hm
        · obtain ⟨hspawn, hbind, hdesc⟩ := h1 m' hm
          have hfilter : (entries ++ [(eb, Action.Spawn task)]).filter
              (fun e => decide (e.2 = m'.action))
              = entries.filter (fun e => decide (e.2 = m'.action)) := by
            have hne : Action.Spawn task ≠ m'.action := fun hh => hnomem m' hm hh.symm
            rw [List.filter_append]
            simp [hne]
          rw [hfilter]
          exact ⟨hspawn, hbind, hdesc⟩
        · rw [List.mem_singleton] at hm
          subst hm
          have hfilter : (entries ++ [(eb, Action.Spawn task)]).filter
              (fun e => decide (e.2 = Action.Spawn task)) = [(eb, Action.Spawn task)] := by
            rw [List.filter_append, hfilter_nil]
            simp
          exact ⟨⟨task, rfl⟩, by rw [hfilter]; rfl, by rw [hfilter]; rfl⟩
      · rw [List.pairwise_append]
        refine ⟨h2, List.pairwise_singleton _ _, ?_⟩
        intro m hm y hy
        rw [List.mem_singleton] at hy
        subst hy
        exact hnomem m hm
      · intro x hx hxs
        rcases List.mem_append.mp hx with hx | hx
        · obtain ⟨m, hm, hma⟩ := h3 x hx hxs
          exact ⟨m, List.mem_append_left _ hm, hma⟩
        · rw [List.mem_singleton] at hx
          subst hx
          exact ⟨_, List.mem_append_right _ (List.mem_singleton_self _), rfl⟩

/-- Auxiliary: the whole fold of `bindings` satisfies the rebuild
specification. -/
theorem bindingsAux_spec (entries : Config) : ModelsSpec entries (bindingsAux entries).1 := by
  suffices h : ∀ (l : Config) (acc : List ShortcutModel × Nat) (pre : Config),
      ModelsSpec pre acc.1 → ModelsSpec (pre ++ l) (l.foldl bindingsStep acc).1 by
    have hinit : ModelsSpec [] (([], 0) : List ShortcutModel × Nat).1 := by
      refine ⟨?_, List.Pairwise.nil, ?_⟩ <;> simp
    simpa using h entries ([], 0) [] hinit
  intro l
  induction l with
  | nil =>
    intro acc pre h
    simpa using h
  | cons e l ih =>
    intro acc pre h
    have hstep := bindingsStep_spec pre acc e h
    have htail := ih (bindingsStep acc e) (pre ++ [e]) hstep
    simpa [List.append_assoc] using htail

/-- C9 (corrected): `bindings`, applied to any sequence of configuration
entries, keeps only entries whose action is a spawn action, produces at most
one `ShortcutModel` per distinct action (all model actions are pairwise
distinct, every spawn entry is represented, and a model's binding slab is
exactly the sequence of bindings of the entries sharing its action — so
entries sharing an action are merged, but without deduplication by
structural equality), and sets each model's description to the description
of the most recently seen entry for that action. -/
theorem c9_amended_rebuild (defaults entries : Config) :
    (∀ m ∈ bindings defaults entries,
      (∃ t, m.action = Action.Spawn t)
      ∧ m.bindings.map (fun sb => sb.binding)
          = (entries.filter (fun e => decide (e.2 = m.action))).map (fun e => e.1)
      ∧ (entries.filter (fun e => decide (e.2 = m.action))).getLast?.map entryDescr
          = some m.description)
    ∧ (bindings defaults entries).Pairwise (fun m1 m2 => m1.action ≠ m2.action)
    ∧ ∀ e ∈ entries, (∃ t, e.2 = Action.Spawn t) →
        ∃ m ∈ bindings defaults entries, m.action = e.2 :=
  bindingsAux_spec entries

/-- Witness for C9 (corrected): on the single spawn entry `(bA, Spawn "x")`
the rebuilt listing contains the model for `Spawn "x"`, and it is a spawn
action. -/
theorem c9_witness :
    ∃ t, (ShortcutModel.mk (Action.Spawn "x") [⟨0, bA, "", false, true⟩] "x" 0).action
      = Action.Spawn t :=
  ((c9_amended_rebuild [] [(bA, Action.Spawn "x")]).1
    (ShortcutModel.mk (Action.Spawn "x") [⟨0, bA, "", false, true⟩] "x" 0) (by decide)).1

/-- Counterexample to C9 as stated: the entries `(bA, Spawn "x")` and
`(bDup, Spawn "x")` carry structurally equal bindings (they differ only in
description) under the same action, yet the merged model keeps both — the
binding set is not deduplicated by structural equality. -/
theorem c9_counterexample :
    (bindings [] [(bA, Action.Spawn "x"), (bDup, Action.Spawn "x")]).map
        (fun m => m.bindings.map (fun sb => sb.binding))
      = [[bA, bDup]]
    ∧ Binding.structEq bA bDup = true
    ∧ bA ≠ bDup := by decide

end CustomShortcuts
